import Mathlib

/-!
Verification of the tinyrenderer rasterization core.

Shallow embedding of the rasterization pipeline from
src/tinyrenderer/src/{lib.rs, line.rs, point.rs, geometry.rs, model.rs}:

* machine integers (i32) are modeled as ℤ (the claims under study never
  exercise i32 overflow; the i32::MAX / i32::MIN sentinels of the
  bounding-box fold are kept as explicit constants);
* f32 arithmetic is modeled as exact arithmetic on ℚ (the claims under
  study are about sign tests, comparisons and small dyadic values that
  f32 represents exactly);
* writes to the TGAImage pixel sink are modeled as the emitted list of
  (point, color) set-calls; repainting an image applies those writes with
  the sink's bounds check (tgaimage set silently drops out-of-range
  writes);
* the depth buffer is modeled as a total map ℤ → ℚ indexed by
  x + y * width, exactly the index expression of the source;
* a Rust panic (Option::unwrap on None) is modeled by returning none.
-/

namespace TinyRenderer

/-- Screen-space integer point (point.rs Point, geometry.rs Vector2Int). -/
structure Pt where
  x : ℤ
  y : ℤ
deriving DecidableEq, Repr

/-- 3D integer vector (geometry.rs Vector3Int). -/
structure Pt3 where
  x : ℤ
  y : ℤ
  z : ℤ
deriving DecidableEq, Repr

/-- The 2D projection used when a Vector3Int is consumed through XYAxis. -/
def Pt3.xy (v : Pt3) : Pt := ⟨v.x, v.y⟩

/-- lib.rs barycentric (lines 72-109): solve the 2x2 system via the
adjugate; det == 0 returns None; containment test
u >= 0.0 && v >= 0.0 && u + v <= 1.0. -/
def barycentric (a b c p : Pt) : Option (ℚ × ℚ × ℚ) :=
  let pvx : ℤ := p.x - a.x
  let pvy : ℤ := p.y - a.y
  let s1x : ℤ := b.x - a.x
  let s1y : ℤ := b.y - a.y
  let s2x : ℤ := c.x - a.x
  let s2y : ℤ := c.y - a.y
  let det : ℤ := s1x * s2y - s1y * s2x
  if det = 0 then none
  else
    let r0 : ℤ := s2y * pvx + (-s2x) * pvy
    let r1 : ℤ := (-s1y) * pvx + s1x * pvy
    let u : ℚ := (r0 : ℚ) / (det : ℚ)
    let v : ℚ := (r1 : ℚ) / (det : ℚ)
    let w : ℚ := 1 - u - v
    if 0 ≤ u ∧ 0 ≤ v ∧ u + v ≤ 1 then some (u, v, w) else none

/-- i32::MAX, the initial bounding-box minimum sentinel. -/
def i32Max : ℤ := 2147483647

/-- i32::MIN, the initial bounding-box maximum sentinel. -/
def i32Min : ℤ := -2147483648

/-- One iteration of the boundary_box_setup vertex fold (lib.rs 119-130). -/
def bboxStep (clampX clampY : ℤ) (acc : Pt × Pt) (p : Pt) : Pt × Pt :=
  (⟨max 0 (min acc.1.x p.x), max 0 (min acc.1.y p.y)⟩,
   ⟨min clampX (max acc.2.x p.x), min clampY (max acc.2.y p.y)⟩)

/-- lib.rs boundary_box_setup (lines 111-133). -/
def boundaryBoxSetup (p1 p2 p3 : Pt) (width height : ℤ) : Pt × Pt :=
  [p1, p2, p3].foldl (bboxStep (width - 1) (height - 1)) (⟨i32Max, i32Max⟩, ⟨i32Min, i32Min⟩)

/-- The inclusive integer range a..=b of Rust, as a list. -/
def intRange (a b : ℤ) : List ℤ := (List.range (b + 1 - a).toNat).map (fun (i : ℕ) => a + (i : ℤ))

/-- The pixel scan order of the barycentric fills: x outer, y inner,
both inclusive ranges over the bounding box. -/
def scanPixels (bmin bmax : Pt) : List Pt :=
  (intRange bmin.x bmax.x).flatMap (fun x => (intRange bmin.y bmax.y).map (fun y => Pt.mk x y))

/-- lib.rs triangle_barycentric (lines 143-161); the emitted image.set
calls in scan order. -/
def triangleBarycentricWrites {C : Type} (v1 v2 v3 : Pt) (color : C) (width height : ℤ) :
    List (Pt × C) :=
  let bb := boundaryBoxSetup v1 v2 v3 width height
  (scanPixels bb.1 bb.2).filterMap (fun p =>
    match barycentric v1 v2 v3 p with
    | some _ => some (p, color)
    | none => none)

/-- The depth-buffer index expression x + y * width of lib.rs 191. -/
def zbufIdx (width : ℤ) (p : Pt) : ℤ := p.x + p.y * width

/-- Point update of the depth buffer map. -/
def zbufUpdate (zb : ℤ → ℚ) (i : ℤ) (z : ℚ) : ℤ → ℚ := fun j => if j = i then z else zb j

/-- Depth interpolation z = z0*w + z1*u + z2*v (lib.rs 187-189). -/
def zInterp (v1 v2 v3 : Pt3) (u v w : ℚ) : ℚ :=
  (v1.z : ℚ) * w + (v2.z : ℚ) * u + (v3.z : ℚ) * v

/-- Loop body of triangle_barycentric_zbuf (lib.rs 184-197): state is the
depth buffer together with the image.set calls emitted so far. -/
def zbufStep {C : Type} (v1 v2 v3 : Pt3) (color : C) (width : ℤ)
    (st : (ℤ → ℚ) × List (Pt × C)) (p : Pt) : (ℤ → ℚ) × List (Pt × C) :=
  match barycentric v1.xy v2.xy v3.xy p with
  | none => st
  | some (u, v, w) =>
    let z : ℚ := zInterp v1 v2 v3 u v w
    if st.1 (zbufIdx width p) < z then
      (zbufUpdate st.1 (zbufIdx width p) z, st.2 ++ [(p, color)])
    else st

/-- lib.rs triangle_barycentric_zbuf (lines 163-198): returns the final
depth buffer and the emitted image.set calls. -/
def triangleBarycentricZbuf {C : Type} (v1 v2 v3 : Pt3) (zb : ℤ → ℚ) (color : C)
    (width height : ℤ) : (ℤ → ℚ) × List (Pt × C) :=
  let bb := boundaryBoxSetup v1.xy v2.xy v3.xy width height
  (scanPixels bb.1 bb.2).foldl (zbufStep v1 v2 v3 color width) (zb, [])

/-- The f32 -> i32 cast of Rust (truncation toward zero) on an exact ℚ. -/
def truncQ (q : ℚ) : ℤ := q.num / (q.den : ℤ)

/-- Texture-coordinate interpolation t0*w + t1*u + t2*v where Vector2Int
is multiplied by f32 componentwise and truncated back to i32 per term
(geometry.rs Mul<f32> for Vector2, lib.rs 230-232). -/
def uvInterp (t0 t1 t2 : Pt) (u v w : ℚ) : Pt :=
  ⟨truncQ ((t0.x : ℚ) * w) + truncQ ((t1.x : ℚ) * u) + truncQ ((t2.x : ℚ) * v),
   truncQ ((t0.y : ℚ) * w) + truncQ ((t1.y : ℚ) * u) + truncQ ((t2.y : ℚ) * v)⟩

/-- model.rs Model, restricted to the diffuse-texture surface consumed by
the textured rasterizer: an optional total texel lookup (TGAImage::get
returns a default color out of range, hence a total function). -/
structure TexModel (C : Type) where
  diffusemap : Option (Pt → C)

/-- model.rs Model::diffuse (lines 168-174): Some(lookup) when a
diffusemap is loaded, None otherwise. -/
def TexModel.diffuse {C : Type} (m : TexModel C) (uv : Pt) : Option C :=
  m.diffusemap.map (fun tex => tex uv)

/-- Fold of a fallible loop body over the scan pixels; none models a
panic aborting the call. -/
def texFold {C : Type}
    (step : (ℤ → ℚ) × List (Pt × C) → Pt → Option ((ℤ → ℚ) × List (Pt × C))) :
    (ℤ → ℚ) × List (Pt × C) → List Pt → Option ((ℤ → ℚ) × List (Pt × C))
  | st, [] => some st
  | st, p :: l =>
    match step st p with
    | none => none
    | some st1 => texFold step st1 l

/-- Loop body of triangle_barycentric_zbuf_with_texture (lib.rs 220-238):
on an accepted pixel the sampled diffuse color is unwrapped (None models
the panic) and written after shading by the intensity factor. -/
def zbufTexStep {C : Type} (v1 v2 v3 : Pt3) (t1 t2 t3 : Pt) (m : TexModel C) (shade : C → C)
    (width : ℤ) (st : (ℤ → ℚ) × List (Pt × C)) (p : Pt) :
    Option ((ℤ → ℚ) × List (Pt × C)) :=
  match barycentric v1.xy v2.xy v3.xy p with
  | none => some st
  | some (u, v, w) =>
    let z : ℚ := zInterp v1 v2 v3 u v w
    if st.1 (zbufIdx width p) < z then
      match TexModel.diffuse m (uvInterp t1 t2 t3 u v w) with
      | none => none
      | some c => some (zbufUpdate st.1 (zbufIdx width p) z, st.2 ++ [(p, shade c)])
    else some st

/-- lib.rs triangle_barycentric_zbuf_with_texture (lines 200-239). -/
def triangleBarycentricZbufTex {C : Type} (v1 v2 v3 : Pt3) (t1 t2 t3 : Pt)
    (m : TexModel C) (shade : C → C) (zb : ℤ → ℚ) (width height : ℤ) :
    Option ((ℤ → ℚ) × List (Pt × C)) :=
  let bb := boundaryBoxSetup v1.xy v2.xy v3.xy width height
  texFold (zbufTexStep v1 v2 v3 t1 t2 t3 m shade width) (zb, []) (scanPixels bb.1 bb.2)

/-- line.rs SlopeParameters (From<&Line>, lines 42-74). -/
structure SlopeParams where
  threshold : ℤ
  derrMajor : ℤ
  derrMinor : ℤ
  stepMajor : Pt
  stepMinor : Pt
  len : ℕ
deriving DecidableEq, Repr

/-- line.rs SlopeParameters::from: pick the major axis, signum steps,
error thresholds. -/
def slopeParams (s e : Pt) : SlopeParams :=
  let dx := e.x - s.x
  let dy := e.y - s.y
  let dxa := |dx|
  let dya := |dy|
  if dxa < dya then
    ⟨dya, 2 * dxa, 2 * dya, ⟨0, dy.sign⟩, ⟨dx.sign, 0⟩, dya.toNat⟩
  else
    ⟨dxa, 2 * dya, 2 * dxa, ⟨dx.sign, 0⟩, ⟨0, dy.sign⟩, dxa.toNat⟩

/-- line.rs BresenhamWrapper::next driven for n emissions (Points
iterator): minor-axis correction first when the error exceeds the
threshold, then emit, then step along the major axis. -/
def bresPoints (P : SlopeParams) : ℕ → Pt → ℤ → List Pt
  | 0, _, _ => []
  | n + 1, cur, err =>
    let cur1 := if err > P.threshold then Pt.mk (cur.x + P.stepMinor.x) (cur.y + P.stepMinor.y)
      else cur
    let err1 := if err > P.threshold then err - P.derrMinor else err
    cur1 :: bresPoints P n (Pt.mk (cur1.x + P.stepMajor.x) (cur1.y + P.stepMajor.y))
      (err1 + P.derrMajor)

/-- line.rs Line::points (Points iterator, length + 1 emissions). -/
def linePointsIter (s e : Pt) : List Pt :=
  let P := slopeParams s e
  bresPoints P (P.len + 1) s 0

/-- One scanline of fill_flat_triangle (lib.rs 305-323): gather the two
edge tracers' points on the line y, then span min..=max. -/
def spanWrites {C : Type} (color : C) (pts1 pts2 : List Pt) (y : ℤ) : List (Pt × C) :=
  let seg1 := (pts1.dropWhile (fun p => p.y != y)).takeWhile (fun p => p.y == y)
  let seg2 := (pts2.dropWhile (fun p => p.y != y)).takeWhile (fun p => p.y == y)
  let mn := (seg1 ++ seg2).foldl (fun m p => min m p.x) i32Max
  let mx := (seg1 ++ seg2).foldl (fun m p => max m p.x) i32Min
  (intRange mn mx).map (fun x => (Pt.mk x y, color))

/-- lib.rs fill_flat_triangle (lines 283-324). -/
def fillFlatTriangle {C : Type} (v1 v2 v3 : Pt) (color : C) : List (Pt × C) :=
  let pts1 := linePointsIter v1 v2
  let pts2 := linePointsIter v1 v3
  let yr := if v1.y < v2.y then intRange v1.y v2.y else intRange v2.y v1.y
  yr.flatMap (spanWrites color pts1 pts2)

/-- lib.rs triangle_vertices_sort (lines 241-253): three pairwise swaps
by ascending y. -/
def triangleVerticesSort (u1 u2 u3 : Pt) : Pt × Pt × Pt :=
  let s1 := if u1.y > u2.y then (u2, u1) else (u1, u2)
  let s2 := if s1.1.y > u3.y then (u3, s1.1) else (s1.1, u3)
  let s3 := if s1.2.y > s2.2.y then (s2.2, s1.2) else (s1.2, s2.2)
  (s2.1, s3.1, s3.2)

/-- lib.rs triangle (lines 255-281): the edge-walking fill; emitted
image.set calls. -/
def triangleWrites {C : Type} (u1 u2 u3 : Pt) (color : C) : List (Pt × C) :=
  let s := triangleVerticesSort u1 u2 u3
  let v1 := s.1
  let v2 := s.2.1
  let v3 := s.2.2
  if v2.y = v3.y then fillFlatTriangle v1 v2 v3 color
  else if v1.y = v2.y then fillFlatTriangle v3 v1 v2 color
  else
    let v4 : Pt :=
      ⟨truncQ ((v1.x : ℚ) + ((v2.y - v1.y : ℤ) : ℚ) / ((v3.y - v1.y : ℤ) : ℚ)
          * ((v3.x - v1.x : ℤ) : ℚ)), v2.y⟩
    fillFlatTriangle v1 v2 v4 color ++ fillFlatTriangle v3 v2 v4 color

/-- The pixel emitted by lib.rs line's loop body: coordinates are swapped
back when the line was transposed. -/
def emitPix (steep : Bool) (x y : ℤ) : Pt := if steep then ⟨y, x⟩ else ⟨x, y⟩

/-- Loop of lib.rs line (lines 56-69): draw, accumulate error, step the
minor axis when the error exceeds dx. -/
def lineLoop (steep : Bool) (dx derror2 ystep : ℤ) : ℕ → ℤ → ℤ → ℤ → List Pt
  | 0, _, _, _ => []
  | n + 1, x, y, e =>
    emitPix steep x y ::
      (if e + derror2 > dx then
        lineLoop steep dx derror2 ystep n (x + 1) (y + ystep) (e + derror2 - dx * 2)
       else lineLoop steep dx derror2 ystep n (x + 1) y (e + derror2))

/-- lib.rs line after endpoint ordering: dx, dy, derror2, y_step setup
(lines 49-54) and the x0..=x1 loop. -/
def lineCore (steep : Bool) (a0 b0 a1 b1 : ℤ) : List Pt :=
  lineLoop steep (a1 - a0) (|b1 - b0| * 2) (if b1 - b0 > 0 then 1 else -1) (a1 - a0 + 1).toNat a0 b0 0

/-- lib.rs line endpoint ordering (lines 44-47). -/
def lineOrdered (steep : Bool) (a0 b0 a1 b1 : ℤ) : List Pt :=
  if a0 > a1 then lineCore steep a1 b1 a0 b0 else lineCore steep a0 b0 a1 b1

/-- lib.rs line (lines 28-70): the emitted pixel sequence. -/
def linePixels (x0 y0 x1 y1 : ℤ) : List Pt :=
  if |x0 - x1| < |y0 - y1| then lineOrdered true y0 x0 y1 x1 else lineOrdered false x0 y0 x1 y1

/-- tgaimage set (tgaimage lib.rs 220-226): out-of-range writes are
silently dropped, in-range writes store the color at (x, y). -/
def imgSet {C : Type} (width height : ℤ) (img : ℤ × ℤ → C) (p : Pt) (c : C) : ℤ × ℤ → C :=
  fun q => if 0 ≤ p.x ∧ p.x < width ∧ 0 ≤ p.y ∧ p.y < height ∧ q = (p.x, p.y) then c else img q

/-- Replay a list of emitted image.set calls on an image. -/
def applyWrites {C : Type} (width height : ℤ) (img : ℤ × ℤ → C) (ws : List (Pt × C)) :
    ℤ × ℤ → C :=
  ws.foldl (fun im e => imgSet width height im e.1 e.2) img

/-- The colors written at one pixel, in order of emission. -/
def writesAt {C : Type} (p : Pt) (ws : List (Pt × C)) : List C :=
  ws.filterMap (fun e => if e.1 = p then some e.2 else none)

/-- Modelled from the spec, section 4.3: det = edge1.x*edge2.y -
edge1.y*edge2.x. -/
def specDet (a b c : Pt) : ℤ := (b.x - a.x) * (c.y - a.y) - (b.y - a.y) * (c.x - a.x)

/-- Modelled from the spec, section 4.3: u is the first adjugate row
applied to the offset, divided by det. -/
def specU (a b c p : Pt) : ℚ :=
  (((c.y - a.y) * (p.x - a.x) - (c.x - a.x) * (p.y - a.y) : ℤ) : ℚ) / ((specDet a b c : ℤ) : ℚ)

/-- Modelled from the spec, section 4.3: v is the second adjugate row
applied to the offset, divided by det. -/
def specV (a b c p : Pt) : ℚ :=
  ((-((b.y - a.y) * (p.x - a.x)) + (b.x - a.x) * (p.y - a.y) : ℤ) : ℚ) / ((specDet a b c : ℤ) : ℚ)

/-! ### Basic facts about ranges, the scan order and the bounding box -/

theorem mem_intRange {a b v : ℤ} : v ∈ intRange a b ↔ a ≤ v ∧ v ≤ b := by
  unfold intRange
  rw [List.mem_map]
  constructor
  · rintro ⟨i, hi, rfl⟩
    rw [List.mem_range] at hi
    omega
  · intro hv
    refine ⟨(v - a).toNat, ?_, ?_⟩
    · rw [List.mem_range]
      omega
    · omega

theorem intRange_nodup (a b : ℤ) : (intRange a b).Nodup := by
  unfold intRange
  refine List.Nodup.map ?_ (List.nodup_range _)
  intro i j h
  dsimp only at h
  omega

theorem mem_scanPixels {m M : Pt} {p : Pt} :
    p ∈ scanPixels m M ↔ m.x ≤ p.x ∧ p.x ≤ M.x ∧ m.y ≤ p.y ∧ p.y ≤ M.y := by
  unfold scanPixels
  rw [List.mem_flatMap]
  constructor
  · rintro ⟨x, hx, hmem⟩
    rw [List.mem_map] at hmem
    obtain ⟨y, hy, rfl⟩ := hmem
    rw [mem_intRange] at hx hy
    exact ⟨hx.1, hx.2, hy.1, hy.2⟩
  · intro h
    refine ⟨p.x, mem_intRange.mpr ⟨h.1, h.2.1⟩, ?_⟩
    rw [List.mem_map]
    exact ⟨p.y, mem_intRange.mpr ⟨h.2.2.1, h.2.2.2⟩, rfl⟩

theorem scanPixels_nodup (m M : Pt) : (scanPixels m M).Nodup := by
  rw [scanPixels, List.nodup_flatMap]
  constructor
  · intro x _
    refine List.Nodup.map ?_ (intRange_nodup _ _)
    intro i j h
    exact congrArg Pt.y h
  · refine List.Pairwise.imp ?_ (intRange_nodup m.x M.x)
    intro x y hxy q hq hq'
    rw [List.mem_map] at hq hq'
    obtain ⟨u, _, rfl⟩ := hq
    obtain ⟨u', _, h'⟩ := hq'
    exact hxy (congrArg Pt.x h'.symm)

theorem bbox_lower (p1 p2 p3 : Pt) (w h : ℤ) :
    0 ≤ (boundaryBoxSetup p1 p2 p3 w h).1.x ∧ 0 ≤ (boundaryBoxSetup p1 p2 p3 w h).1.y ∧
    (boundaryBoxSetup p1 p2 p3 w h).2.x ≤ w - 1 ∧ (boundaryBoxSetup p1 p2 p3 w h).2.y ≤ h - 1 := by
  simp only [boundaryBoxSetup, bboxStep, List.foldl_cons, List.foldl_nil]
  refine ⟨le_max_left _ _, le_max_left _ _, min_le_left _ _, min_le_left _ _⟩

/-! ### The barycentric solver: spec formulas and an integer decision form -/

theorem div_nonneg_iff_mul (r d : ℚ) (hd : d ≠ 0) : 0 ≤ r / d ↔ 0 ≤ r * d := by
  have hdd : 0 < d * d := mul_self_pos.mpr hd
  have key : r / d = r * d / (d * d) := by
    field_simp
    ring
  rw [key, le_div_iff₀ hdd, zero_mul]

theorem div_sum_le_one_iff_mul (r0 r1 d : ℚ) (hd : d ≠ 0) :
    r0 / d + r1 / d ≤ 1 ↔ (r0 + r1) * d ≤ d * d := by
  have hdd : 0 < d * d := mul_self_pos.mpr hd
  have key : r0 / d + r1 / d = (r0 + r1) * d / (d * d) := by
    field_simp
    ring
  rw [key, div_le_iff₀ hdd, one_mul]

theorem barycentric_eq_spec (a b c p : Pt) :
    barycentric a b c p =
      if specDet a b c = 0 then none
      else if 0 ≤ specU a b c p ∧ 0 ≤ specV a b c p ∧ specU a b c p + specV a b c p ≤ 1 then
        some (specU a b c p, specV a b c p, 1 - specU a b c p - specV a b c p)
      else none := by
  simp only [barycentric, specU, specV, specDet]
  have h0 : ((c.y - a.y) * (p.x - a.x) + -(c.x - a.x) * (p.y - a.y) : ℤ)
      = ((c.y - a.y) * (p.x - a.x) - (c.x - a.x) * (p.y - a.y) : ℤ) := by ring
  have h1 : ((-(b.y - a.y)) * (p.x - a.x) + (b.x - a.x) * (p.y - a.y) : ℤ)
      = (-((b.y - a.y) * (p.x - a.x)) + (b.x - a.x) * (p.y - a.y) : ℤ) := by ring
  rw [h0, h1]

/-- The containment decision of the solver, phrased on integers only
(u = r0/det is nonnegative iff r0*det is, and u+v <= 1 iff
(r0+r1)*det <= det*det); used to run the fills by kernel computation. -/
def BaryAccept (a b c p : Pt) : Prop :=
  let pvx : ℤ := p.x - a.x
  let pvy : ℤ := p.y - a.y
  let s1x : ℤ := b.x - a.x
  let s1y : ℤ := b.y - a.y
  let s2x : ℤ := c.x - a.x
  let s2y : ℤ := c.y - a.y
  let det : ℤ := s1x * s2y - s1y * s2x
  let r0 : ℤ := s2y * pvx + (-s2x) * pvy
  let r1 : ℤ := (-s1y) * pvx + s1x * pvy
  ¬det = 0 ∧ 0 ≤ r0 * det ∧ 0 ≤ r1 * det ∧ (r0 + r1) * det ≤ det * det

instance (a b c p : Pt) : Decidable (BaryAccept a b c p) := by
  unfold BaryAccept
  exact instDecidableAnd

theorem barycentric_isSome_iff (a b c p : Pt) :
    (barycentric a b c p).isSome = true ↔ BaryAccept a b c p := by
  simp only [barycentric, BaryAccept]
  by_cases hdet : (b.x - a.x) * (c.y - a.y) - (b.y - a.y) * (c.x - a.x) = 0
  · simp [hdet]
  · rw [if_neg hdet]
    have hdq : (((b.x - a.x) * (c.y - a.y) - (b.y - a.y) * (c.x - a.x) : ℤ) : ℚ) ≠ 0 :=
      Int.cast_ne_zero.mpr hdet
    have hiff :
        (0 ≤ (((c.y - a.y) * (p.x - a.x) + -(c.x - a.x) * (p.y - a.y) : ℤ) : ℚ)
            / (((b.x - a.x) * (c.y - a.y) - (b.y - a.y) * (c.x - a.x) : ℤ) : ℚ) ∧
         0 ≤ ((-(b.y - a.y) * (p.x - a.x) + (b.x - a.x) * (p.y - a.y) : ℤ) : ℚ)
            / (((b.x - a.x) * (c.y - a.y) - (b.y - a.y) * (c.x - a.x) : ℤ) : ℚ) ∧
         (((c.y - a.y) * (p.x - a.x) + -(c.x - a.x) * (p.y - a.y) : ℤ) : ℚ)
            / (((b.x - a.x) * (c.y - a.y) - (b.y - a.y) * (c.x - a.x) : ℤ) : ℚ)
          + ((-(b.y - a.y) * (p.x - a.x) + (b.x - a.x) * (p.y - a.y) : ℤ) : ℚ)
            / (((b.x - a.x) * (c.y - a.y) - (b.y - a.y) * (c.x - a.x) : ℤ) : ℚ) ≤ 1) ↔
        (0 ≤ ((c.y - a.y) * (p.x - a.x) + -(c.x - a.x) * (p.y - a.y))
            * ((b.x - a.x) * (c.y - a.y) - (b.y - a.y) * (c.x - a.x)) ∧
         0 ≤ (-(b.y - a.y) * (p.x - a.x) + (b.x - a.x) * (p.y - a.y))
            * ((b.x - a.x) * (c.y - a.y) - (b.y - a.y) * (c.x - a.x)) ∧
         ((c.y - a.y) * (p.x - a.x) + -(c.x - a.x) * (p.y - a.y)
            + (-(b.y - a.y) * (p.x - a.x) + (b.x - a.x) * (p.y - a.y)))
            * ((b.x - a.x) * (c.y - a.y) - (b.y - a.y) * (c.x - a.x)) ≤
          ((b.x - a.x) * (c.y - a.y) - (b.y - a.y) * (c.x - a.x))
            * ((b.x - a.x) * (c.y - a.y) - (b.y - a.y) * (c.x - a.x))) := by
      rw [div_nonneg_iff_mul _ _ hdq, div_nonneg_iff_mul _ _ hdq,
        div_sum_le_one_iff_mul _ _ _ hdq]
      constructor
      · rintro ⟨h1, h2, h3⟩
        refine ⟨by exact_mod_cast h1, by exact_mod_cast h2, by exact_mod_cast h3⟩
      · rintro ⟨h1, h2, h3⟩
        refine ⟨by exact_mod_cast h1, by exact_mod_cast h2, by exact_mod_cast h3⟩
    by_cases hc : (0 ≤ ((c.y - a.y) * (p.x - a.x) + -(c.x - a.x) * (p.y - a.y))
            * ((b.x - a.x) * (c.y - a.y) - (b.y - a.y) * (c.x - a.x)) ∧
         0 ≤ (-(b.y - a.y) * (p.x - a.x) + (b.x - a.x) * (p.y - a.y))
            * ((b.x - a.x) * (c.y - a.y) - (b.y - a.y) * (c.x - a.x)) ∧
         ((c.y - a.y) * (p.x - a.x) + -(c.x - a.x) * (p.y - a.y)
            + (-(b.y - a.y) * (p.x - a.x) + (b.x - a.x) * (p.y - a.y)))
            * ((b.x - a.x) * (c.y - a.y) - (b.y - a.y) * (c.x - a.x)) ≤
          ((b.x - a.x) * (c.y - a.y) - (b.y - a.y) * (c.x - a.x))
            * ((b.x - a.x) * (c.y - a.y) - (b.y - a.y) * (c.x - a.x)))
    · rw [if_pos (hiff.mpr hc)]
      exact ⟨fun _ => ⟨hdet, hc.1, hc.2.1, hc.2.2⟩, fun _ => rfl⟩
    · rw [if_neg (fun hq => hc (hiff.mp hq))]
      simp only [Option.isSome_none, Bool.false_eq_true, false_iff]
      rintro ⟨-, h1, h2, h3⟩
      exact hc ⟨h1, h2, h3⟩

theorem barycentric_eq_none_iff (a b c p : Pt) :
    barycentric a b c p = none ↔ ¬BaryAccept a b c p := by
  rw [← barycentric_isSome_iff]
  rcases hb : barycentric a b c p with _ | t <;> simp

theorem barycentric_none_of_det {a b c : Pt} (p : Pt) (hdet : specDet a b c = 0) :
    barycentric a b c p = none := by
  rw [barycentric_eq_spec, if_pos hdet]

theorem triangleBarycentricWrites_eq_dec {C : Type} (v1 v2 v3 : Pt) (c : C) (w h : ℤ) :
    triangleBarycentricWrites v1 v2 v3 c w h =
      (scanPixels (boundaryBoxSetup v1 v2 v3 w h).1 (boundaryBoxSetup v1 v2 v3 w h).2).filterMap
        (fun p => if BaryAccept v1 v2 v3 p then some (p, c) else none) := by
  simp only [triangleBarycentricWrites]
  congr 1
  funext p
  rcases hb : barycentric v1 v2 v3 p with _ | t
  · have hacc : ¬BaryAccept v1 v2 v3 p := (barycentric_eq_none_iff v1 v2 v3 p).mp hb
    rw [if_neg hacc]
  · have hacc : BaryAccept v1 v2 v3 p := by
      rw [← barycentric_isSome_iff, hb]
      rfl
    rw [if_pos hacc]

theorem intRange_eq_nil {a b : ℤ} (h : b < a) : intRange a b = [] := by
  unfold intRange
  rw [show (b + 1 - a).toNat = 0 from by omega]
  rfl

theorem scanPixels_eq_nil {m M : Pt} (hcond : M.x < m.x ∨ M.y < m.y) : scanPixels m M = [] := by
  rcases hcond with hx | hy
  · unfold scanPixels
    rw [intRange_eq_nil hx]
    rfl
  · unfold scanPixels
    rw [intRange_eq_nil hy]
    rw [List.flatMap_eq_nil_iff]
    intro x _
    rfl

theorem foldl_zbufStep_id {C : Type} (v1 v2 v3 : Pt3) (c : C) (w : ℤ)
    (hall : ∀ p, barycentric v1.xy v2.xy v3.xy p = none) :
    ∀ (L : List Pt) (st : (ℤ → ℚ) × List (Pt × C)), L.foldl (zbufStep v1 v2 v3 c w) st = st := by
  intro L
  induction L with
  | nil => intro st; rfl
  | cons q L ih =>
    intro st
    rw [List.foldl_cons, show zbufStep v1 v2 v3 c w st q = st from by
      unfold zbufStep
      rw [hall q]]
    exact ih st

/-! ### Claim theorems -/

/-- Claim C3: for every triangle and query point, barycentric returns
none when det = edge1.x*edge2.y - edge1.y*edge2.x is 0; otherwise it
computes u and v as the adjugate-transformed offset divided by det and
w = 1 - u - v, and returns some (u, v, w) if and only if
u >= 0, v >= 0 and u + v <= 1. -/
theorem c3_barycentric_solver (a b c p : Pt) :
    barycentric a b c p =
      if specDet a b c = 0 then none
      else if 0 ≤ specU a b c p ∧ 0 ≤ specV a b c p ∧ specU a b c p + specV a b c p ≤ 1 then
        some (specU a b c p, specV a b c p, 1 - specU a b c p - specV a b c p)
      else none :=
  barycentric_eq_spec a b c p

/-- Claim C8: on the triangle (0,0),(0,2),(2,0) the solver yields
(0, 0.5, 0.5) at (1,0) (edge point, accepted), (0,0,1) at (0,0), and
no containment at (2,2). -/
theorem c8_round_trip :
    barycentric ⟨0, 0⟩ ⟨0, 2⟩ ⟨2, 0⟩ ⟨1, 0⟩ = some (0, 1/2, 1/2) ∧
    barycentric ⟨0, 0⟩ ⟨0, 2⟩ ⟨2, 0⟩ ⟨0, 0⟩ = some (0, 0, 1) ∧
    barycentric ⟨0, 0⟩ ⟨0, 2⟩ ⟨2, 0⟩ ⟨2, 2⟩ = none := by
  refine ⟨?_, ?_, ?_⟩ <;> norm_num [barycentric]

/-- Claim C1 (amended): for a degenerate triangle (det = 0, collinear
vertices) the two barycentric fills perform zero pixel writes:
triangle_barycentric emits no set call and triangle_barycentric_zbuf
leaves the depth buffer untouched and emits no set call.  (The
edge-walking fill is excluded: see the counterexample.) -/
theorem c1_degenerate_barycentric_noop {C : Type} (v1 v2 v3 : Pt3) (zb : ℤ → ℚ) (c c' : C)
    (w h : ℤ) (hdet : specDet v1.xy v2.xy v3.xy = 0) :
    triangleBarycentricWrites v1.xy v2.xy v3.xy c w h = [] ∧
    triangleBarycentricZbuf v1 v2 v3 zb c' w h = (zb, []) := by
  constructor
  · unfold triangleBarycentricWrites
    rw [List.filterMap_eq_nil_iff]
    intro p _
    rw [barycentric_none_of_det p hdet]
  · unfold triangleBarycentricZbuf
    exact foldl_zbufStep_id v1 v2 v3 c' w (fun p => barycentric_none_of_det p hdet) _ _

/-- Claim C1 witness: the amended no-op theorem applied to the concrete
collinear triangle (0,0),(1,1),(2,2). -/
theorem c1_witness :
    triangleBarycentricWrites (Pt3.xy ⟨0, 0, 0⟩) (Pt3.xy ⟨1, 1, 0⟩) (Pt3.xy ⟨2, 2, 0⟩) (0 : ℕ) 4 4
      = [] ∧
    triangleBarycentricZbuf ⟨0, 0, 0⟩ ⟨1, 1, 0⟩ ⟨2, 2, 0⟩ (fun _ => (0 : ℚ)) (0 : ℕ) 4 4
      = (fun _ => (0 : ℚ), []) :=
  c1_degenerate_barycentric_noop ⟨0, 0, 0⟩ ⟨1, 1, 0⟩ ⟨2, 2, 0⟩ (fun _ => (0 : ℚ)) 0 0 4 4
    (by decide)

/-- Claim C1 counterexample: the collinear triangle (0,0),(1,0),(2,0)
has det = 0, yet the edge-walking fill (the function named triangle in
the source) emits pixel writes, and those writes change an in-bounds
image pixel. -/
theorem c1_counterexample :
    specDet ⟨0, 0⟩ ⟨1, 0⟩ ⟨2, 0⟩ = 0 ∧
    triangleWrites ⟨0, 0⟩ ⟨1, 0⟩ ⟨2, 0⟩ (0 : ℕ) ≠ [] ∧
    applyWrites 3 1 (fun _ => (0 : ℕ)) (triangleWrites ⟨0, 0⟩ ⟨1, 0⟩ ⟨2, 0⟩ 1) (0, 0) = 1 := by
  refine ⟨by decide, by decide, by decide⟩

/-- Claim C7: on the right triangle (0,0),(4,0),(0,4) the edge-walking
fill and the barycentric fill fill the same number of distinct pixels. -/
theorem c7_flat_vs_barycentric_count :
    ((triangleWrites ⟨0, 0⟩ ⟨4, 0⟩ ⟨0, 4⟩ (0 : ℕ)).map Prod.fst).dedup.length =
    ((triangleBarycentricWrites ⟨0, 0⟩ ⟨4, 0⟩ ⟨0, 4⟩ (0 : ℕ) 16 16).map Prod.fst).dedup.length := by
  rw [triangleBarycentricWrites_eq_dec]
  decide

/-- Claim C4 (amended): the clipped bounding box is the per-axis
independent clamp min = max(0, min components), max = min(width-1 or
height-1, max components) for i32 vertices, and a triangle whose
vertices all lie off the same side of the viewport yields an empty
(min > max) range, so the barycentric scan visits zero pixels.  (The
original claim over every triangle entirely outside the viewport is
refuted by the counterexample.) -/
theorem c4_boundary_box (v1 v2 v3 : Pt) (w h : ℤ)
    (hb : i32Min ≤ v1.x ∧ v1.x ≤ i32Max ∧ i32Min ≤ v1.y ∧ v1.y ≤ i32Max ∧
          i32Min ≤ v2.x ∧ v2.x ≤ i32Max ∧ i32Min ≤ v2.y ∧ v2.y ≤ i32Max ∧
          i32Min ≤ v3.x ∧ v3.x ≤ i32Max ∧ i32Min ≤ v3.y ∧ v3.y ≤ i32Max) :
    boundaryBoxSetup v1 v2 v3 w h =
      (⟨max 0 (min v1.x (min v2.x v3.x)), max 0 (min v1.y (min v2.y v3.y))⟩,
       ⟨min (w - 1) (max v1.x (max v2.x v3.x)), min (h - 1) (max v1.y (max v2.y v3.y))⟩) ∧
    (((v1.x < 0 ∧ v2.x < 0 ∧ v3.x < 0) ∨ (w ≤ v1.x ∧ w ≤ v2.x ∧ w ≤ v3.x) ∨
      (v1.y < 0 ∧ v2.y < 0 ∧ v3.y < 0) ∨ (h ≤ v1.y ∧ h ≤ v2.y ∧ h ≤ v3.y)) →
      0 < w → 0 < h →
      scanPixels (boundaryBoxSetup v1 v2 v3 w h).1 (boundaryBoxSetup v1 v2 v3 w h).2 = []) := by
  simp only [i32Min, i32Max] at hb
  have heq : boundaryBoxSetup v1 v2 v3 w h =
      (⟨max 0 (min v1.x (min v2.x v3.x)), max 0 (min v1.y (min v2.y v3.y))⟩,
       ⟨min (w - 1) (max v1.x (max v2.x v3.x)), min (h - 1) (max v1.y (max v2.y v3.y))⟩) := by
    simp only [boundaryBoxSetup, bboxStep, List.foldl_cons, List.foldl_nil, i32Min, i32Max]
    simp only [Prod.mk.injEq, Pt.mk.injEq]
    refine ⟨⟨?_, ?_⟩, ?_, ?_⟩ <;> omega
  refine ⟨heq, ?_⟩
  intro hside hw hh
  rw [heq]
  apply scanPixels_eq_nil
  rcases hside with hc | hc | hc | hc
  · left
    simp only
    omega
  · left
    simp only
    omega
  · right
    simp only
    omega
  · right
    simp only
    omega

/-- Claim C4 witness: the amended theorem applied to the triangle
(-5,2),(-3,4),(-1,1) left of an 8x8 viewport; the clamped range is
empty and zero pixels are scanned. -/
theorem c4_witness :
    boundaryBoxSetup ⟨-5, 2⟩ ⟨-3, 4⟩ ⟨-1, 1⟩ 8 8 =
      (⟨max 0 (min (-5) (min (-3) (-1))), max 0 (min 2 (min 4 1))⟩,
       ⟨min (8 - 1) (max (-5) (max (-3) (-1))), min (8 - 1) (max 2 (max 4 1))⟩) ∧
    ((((-5 : ℤ) < 0 ∧ (-3 : ℤ) < 0 ∧ (-1 : ℤ) < 0) ∨ ((8 : ℤ) ≤ -5 ∧ (8 : ℤ) ≤ -3 ∧ (8 : ℤ) ≤ -1) ∨
      ((2 : ℤ) < 0 ∧ (4 : ℤ) < 0 ∧ (1 : ℤ) < 0) ∨ ((8 : ℤ) ≤ 2 ∧ (8 : ℤ) ≤ 4 ∧ (8 : ℤ) ≤ 1)) →
      (0 : ℤ) < 8 → (0 : ℤ) < 8 →
      scanPixels (boundaryBoxSetup ⟨-5, 2⟩ ⟨-3, 4⟩ ⟨-1, 1⟩ 8 8).1
        (boundaryBoxSetup ⟨-5, 2⟩ ⟨-3, 4⟩ ⟨-1, 1⟩ 8 8).2 = []) :=
  c4_boundary_box ⟨-5, 2⟩ ⟨-3, 4⟩ ⟨-1, 1⟩ 8 8 (by decide)

/-- Claim C4 counterexample: the triangle (-10,5),(5,-10),(-9,-9) lies
entirely outside the 6x6 viewport: its vertices all satisfy x + y <= -5
(so its whole convex hull misses the quadrant x >= 0, y >= 0) and its
containment test accepts no viewport pixel.  Yet the clipped bounding
box is (0,0)..(5,5), a nonempty range, and the barycentric scan visits
36 pixels, refuting the every-outside-triangle-scans-zero-pixels claim. -/
theorem c4_counterexample :
    ((-10 : ℤ) + 5 ≤ -5 ∧ (5 : ℤ) + -10 ≤ -5 ∧ (-9 : ℤ) + -9 ≤ -5) ∧
    ((scanPixels ⟨0, 0⟩ ⟨5, 5⟩).all
      (fun p => (barycentric ⟨-10, 5⟩ ⟨5, -10⟩ ⟨-9, -9⟩ p).isNone)) = true ∧
    boundaryBoxSetup ⟨-10, 5⟩ ⟨5, -10⟩ ⟨-9, -9⟩ 6 6 = (⟨0, 0⟩, ⟨5, 5⟩) ∧
    (scanPixels (boundaryBoxSetup ⟨-10, 5⟩ ⟨5, -10⟩ ⟨-9, -9⟩ 6 6).1
      (boundaryBoxSetup ⟨-10, 5⟩ ⟨5, -10⟩ ⟨-9, -9⟩ 6 6).2).length = 36 := by
  refine ⟨by decide, ?_, by decide, by decide⟩
  rw [List.all_eq_true]
  have hdec : ∀ p ∈ scanPixels ⟨0, 0⟩ ⟨5, 5⟩, ¬BaryAccept ⟨-10, 5⟩ ⟨5, -10⟩ ⟨-9, -9⟩ p := by
    decide
  intro p hp
  show (barycentric ⟨-10, 5⟩ ⟨5, -10⟩ ⟨-9, -9⟩ p).isNone = true
  rw [(barycentric_eq_none_iff _ _ _ p).mpr (hdec p hp)]
  rfl

/-! ### The lib.rs line rasterizer: endpoint inclusion and symmetry -/

theorem lineLoop_succ (steep : Bool) (dx derror2 ystep : ℤ) (n : ℕ) (x y e : ℤ) :
    lineLoop steep dx derror2 ystep (n + 1) x y e =
      emitPix steep x y ::
        (if e + derror2 > dx then
          lineLoop steep dx derror2 ystep n (x + 1) (y + ystep) (e + derror2 - dx * 2)
         else lineLoop steep dx derror2 ystep n (x + 1) y (e + derror2)) := by
  rw [lineLoop]

/-- The Bresenham loop invariant: after n further steps from state
(x, y, e) with the error in (-dx, dx], the pixel at major coordinate
x + n is emitted with minor coordinate y + ystep * m for some m, and the
error at that final step is again in (-dx, dx]. -/
theorem lineLoop_end_mem (steep : Bool) (dx derror2 ystep : ℤ)
    (_hdx : 0 < dx) (hd0 : 0 ≤ derror2) (hd2 : derror2 ≤ 2 * dx) :
    ∀ (n : ℕ) (x y e : ℤ), -dx < e → e ≤ dx →
      ∃ m : ℤ, 0 ≤ m ∧
        emitPix steep (x + (n : ℤ)) (y + ystep * m) ∈
          lineLoop steep dx derror2 ystep (n + 1) x y e ∧
        -dx < e + derror2 * (n : ℤ) - 2 * dx * m ∧
        e + derror2 * (n : ℤ) - 2 * dx * m ≤ dx := by
  intro n
  induction n with
  | zero =>
    intro x y e h1 h2
    refine ⟨0, le_refl 0, ?_, by simpa, by simpa⟩
    rw [lineLoop_succ]
    simp
  | succ n ih =>
    intro x y e h1 h2
    by_cases hstep : e + derror2 > dx
    · obtain ⟨m, hm0, hmem, hb1, hb2⟩ :=
        ih (x + 1) (y + ystep) (e + derror2 - dx * 2) (by omega) (by omega)
      refine ⟨m + 1, by omega, ?_, ?_, ?_⟩
      · have hx : x + 1 + (n : ℤ) = x + ((n + 1 : ℕ) : ℤ) := by push_cast; ring
        have hy : y + ystep + ystep * m = y + ystep * (m + 1) := by ring
        rw [hx, hy] at hmem
        rw [lineLoop_succ, if_pos hstep]
        exact List.mem_cons_of_mem _ hmem
      · have harith : e + derror2 * ((n + 1 : ℕ) : ℤ) - 2 * dx * (m + 1)
            = e + derror2 - dx * 2 + derror2 * (n : ℤ) - 2 * dx * m := by push_cast; ring
        rw [harith]
        exact hb1
      · have harith : e + derror2 * ((n + 1 : ℕ) : ℤ) - 2 * dx * (m + 1)
            = e + derror2 - dx * 2 + derror2 * (n : ℤ) - 2 * dx * m := by push_cast; ring
        rw [harith]
        exact hb2
    · obtain ⟨m, hm0, hmem, hb1, hb2⟩ := ih (x + 1) y (e + derror2) (by omega) (by omega)
      refine ⟨m, hm0, ?_, ?_, ?_⟩
      · have hx : x + 1 + (n : ℤ) = x + ((n + 1 : ℕ) : ℤ) := by push_cast; ring
        rw [hx] at hmem
        rw [lineLoop_succ, if_neg hstep]
        exact List.mem_cons_of_mem _ hmem
      · have harith : e + derror2 * ((n + 1 : ℕ) : ℤ) - 2 * dx * m
            = e + derror2 + derror2 * (n : ℤ) - 2 * dx * m := by push_cast; ring
        rw [harith]
        exact hb1
      · have harith : e + derror2 * ((n + 1 : ℕ) : ℤ) - 2 * dx * m
            = e + derror2 + derror2 * (n : ℤ) - 2 * dx * m := by push_cast; ring
        rw [harith]
        exact hb2

theorem lineCore_endpoints (steep : Bool) (a0 b0 a1 b1 : ℤ) (hle : a0 ≤ a1)
    (habs : |b1 - b0| ≤ a1 - a0) :
    emitPix steep a0 b0 ∈ lineCore steep a0 b0 a1 b1 ∧
    emitPix steep a1 b1 ∈ lineCore steep a0 b0 a1 b1 := by
  unfold lineCore
  by_cases hdx : a1 - a0 = 0
  · have hb : b1 = b0 := by
      rw [abs_le] at habs
      omega
    have ha : a1 = a0 := by omega
    rw [ha, hb, show (a0 - a0 + 1).toNat = 0 + 1 from by omega, lineLoop_succ]
    simp [lineLoop]
  · have hdxpos : 0 < a1 - a0 := by omega
    have hd2 : |b1 - b0| * 2 ≤ 2 * (a1 - a0) := by linarith
    rw [show (a1 - a0 + 1).toNat = (a1 - a0).toNat + 1 from by omega]
    constructor
    · rw [lineLoop_succ]
      exact List.mem_cons_self _ _
    · obtain ⟨m, hm0, hmem, hb1, hb2⟩ :=
        lineLoop_end_mem steep (a1 - a0) (|b1 - b0| * 2) (if b1 - b0 > 0 then 1 else -1)
          hdxpos (by positivity) hd2 (a1 - a0).toNat a0 b0 0 (by omega) (by omega)
      have hcast : (((a1 - a0).toNat : ℕ) : ℤ) = a1 - a0 := by omega
      rw [hcast] at hmem hb1 hb2
      have hm : m = |b1 - b0| := by
        rcases lt_trichotomy m |b1 - b0| with hlt | heq | hgt
        · exfalso
          have hAm : 1 ≤ |b1 - b0| - m := by omega
          have hmul : 2 * (a1 - a0) * 1 ≤ 2 * (a1 - a0) * (|b1 - b0| - m) :=
            mul_le_mul_of_nonneg_left hAm (by omega)
          nlinarith [hb2]
        · exact heq
        · exfalso
          have hAm : m - |b1 - b0| ≥ 1 := by omega
          have hmul : 2 * (a1 - a0) * 1 ≤ 2 * (a1 - a0) * (m - |b1 - b0|) :=
            mul_le_mul_of_nonneg_left hAm (by omega)
          nlinarith [hb1]
      rw [hm] at hmem
      have hy : (if b1 - b0 > 0 then (1 : ℤ) else -1) * |b1 - b0| = b1 - b0 := by
        by_cases hpos : b1 - b0 > 0
        · rw [if_pos hpos, abs_of_pos hpos, one_mul]
        · rw [if_neg hpos, abs_of_nonpos (by omega)]
          ring
      rw [hy, show a0 + (a1 - a0) = a1 from by ring, show b0 + (b1 - b0) = b1 from by ring]
        at hmem
      exact hmem

/-- Claim C5: the pixel set produced by the line rasterizer contains
both endpoints, for every pair of integer endpoints. -/
theorem c5_line_endpoints (x0 y0 x1 y1 : ℤ) :
    Pt.mk x0 y0 ∈ linePixels x0 y0 x1 y1 ∧ Pt.mk x1 y1 ∈ linePixels x0 y0 x1 y1 := by
  unfold linePixels lineOrdered
  by_cases hsteep : |x0 - x1| < |y0 - y1|
  · rw [if_pos hsteep]
    by_cases hord : y0 > y1
    · rw [if_pos hord]
      have habs : |x0 - x1| ≤ y0 - y1 := by
        rw [show |y0 - y1| = y0 - y1 from abs_of_pos (by omega)] at hsteep
        omega
      have h := lineCore_endpoints true y1 x1 y0 x0 (by omega) habs
      exact ⟨by simpa [emitPix] using h.2, by simpa [emitPix] using h.1⟩
    · rw [if_neg hord]
      have habs : |x1 - x0| ≤ y1 - y0 := by
        rw [show |y0 - y1| = y1 - y0 from by rw [abs_sub_comm]; exact abs_of_nonneg (by omega)]
          at hsteep
        rw [abs_sub_comm]
        omega
      have h := lineCore_endpoints true y0 x0 y1 x1 (by omega) habs
      exact ⟨by simpa [emitPix] using h.1, by simpa [emitPix] using h.2⟩
  · rw [if_neg hsteep]
    have hge : |y0 - y1| ≤ |x0 - x1| := by omega
    by_cases hord : x0 > x1
    · rw [if_pos hord]
      have habs : |y0 - y1| ≤ x0 - x1 := by
        rw [show |x0 - x1| = x0 - x1 from abs_of_pos (by omega)] at hge
        omega
      have h := lineCore_endpoints false x1 y1 x0 y0 (by omega) habs
      exact ⟨by simpa [emitPix] using h.2, by simpa [emitPix] using h.1⟩
    · rw [if_neg hord]
      have habs : |y1 - y0| ≤ x1 - x0 := by
        rw [show |x0 - x1| = x1 - x0 from by rw [abs_sub_comm]; exact abs_of_nonneg (by omega)]
          at hge
        rw [abs_sub_comm]
        omega
      have h := lineCore_endpoints false x0 y0 x1 y1 (by omega) habs
      exact ⟨by simpa [emitPix] using h.1, by simpa [emitPix] using h.2⟩

theorem lineOrdered_swap (steep : Bool) (a0 b0 a1 b1 : ℤ) (habs : |b1 - b0| ≤ |a1 - a0|) :
    lineOrdered steep a0 b0 a1 b1 = lineOrdered steep a1 b1 a0 b0 := by
  unfold lineOrdered
  rcases lt_trichotomy a0 a1 with hlt | heq | hgt
  · rw [if_neg (by omega), if_pos hlt]
  · have hb : b0 = b1 := by
      rw [heq, sub_self, abs_zero] at habs
      have h0 := abs_nonneg (b1 - b0)
      have : |b1 - b0| = 0 := le_antisymm habs h0
      rw [abs_eq_zero] at this
      omega
    rw [heq, hb]
  · rw [if_pos hgt, if_neg (by omega)]

/-- Claim C6: the line rasterizer emits the same pixel set when called
with its endpoints in either order. -/
theorem c6_line_symmetric (x0 y0 x1 y1 : ℤ) (p : Pt) :
    p ∈ linePixels x0 y0 x1 y1 ↔ p ∈ linePixels x1 y1 x0 y0 := by
  unfold linePixels
  rw [show |x1 - x0| = |x0 - x1| from abs_sub_comm x1 x0,
    show |y1 - y0| = |y0 - y1| from abs_sub_comm y1 y0]
  by_cases hsteep : |x0 - x1| < |y0 - y1|
  · rw [if_pos hsteep, if_pos hsteep,
      lineOrdered_swap true y0 x0 y1 x1 (by rw [abs_sub_comm x1 x0, abs_sub_comm y1 y0]; omega)]
  · rw [if_neg hsteep, if_neg hsteep,
      lineOrdered_swap false x0 y0 x1 y1 (by rw [abs_sub_comm x1 x0, abs_sub_comm y1 y0]; omega)]

/-! ### The depth-buffered fill: per-cell behavior -/

theorem ptExt {p q : Pt} (hx : p.x = q.x) (hy : p.y = q.y) : p = q := by
  cases p
  cases q
  simp only [Pt.mk.injEq]
  exact ⟨hx, hy⟩

theorem writesAt_nil {C : Type} (p : Pt) : writesAt p ([] : List (Pt × C)) = [] := rfl

theorem writesAt_append {C : Type} (p : Pt) (ws1 ws2 : List (Pt × C)) :
    writesAt p (ws1 ++ ws2) = writesAt p ws1 ++ writesAt p ws2 := by
  simp [writesAt]

theorem writesAt_single_self {C : Type} (p : Pt) (c : C) : writesAt p [(p, c)] = [c] := by
  simp [writesAt]

theorem writesAt_single_other {C : Type} {p q : Pt} (c : C) (hne : q ≠ p) :
    writesAt p [(q, c)] = [] := by
  simp [writesAt, hne]

/-- Pixels whose depth-buffer cell differs from p's leave p's cell and
p's writes unchanged. -/
theorem foldl_zbufStep_untouched {C : Type} (v1 v2 v3 : Pt3) (c : C) (w : ℤ) (p : Pt)
    (L : List Pt) :
    ∀ st : (ℤ → ℚ) × List (Pt × C), (∀ q ∈ L, zbufIdx w q ≠ zbufIdx w p) →
      ((L.foldl (zbufStep v1 v2 v3 c w) st).1 (zbufIdx w p) = st.1 (zbufIdx w p)) ∧
      writesAt p (L.foldl (zbufStep v1 v2 v3 c w) st).2 = writesAt p st.2 := by
  induction L with
  | nil =>
    intro st _
    exact ⟨rfl, rfl⟩
  | cons q L ih =>
    intro st hL
    have hq := hL q (List.mem_cons_self q L)
    have hq' : q ≠ p := fun hqp => hq (by rw [hqp])
    have hstep : ((zbufStep v1 v2 v3 c w st q).1 (zbufIdx w p) = st.1 (zbufIdx w p)) ∧
        writesAt p (zbufStep v1 v2 v3 c w st q).2 = writesAt p st.2 := by
      unfold zbufStep
      cases hbar : barycentric v1.xy v2.xy v3.xy q with
      | none => exact ⟨rfl, rfl⟩
      | some t =>
        obtain ⟨u, v, wq⟩ := t
        dsimp only
        by_cases hlt : st.1 (zbufIdx w q) < zInterp v1 v2 v3 u v wq
        · rw [if_pos hlt]
          constructor
          · show zbufUpdate st.1 (zbufIdx w q) _ (zbufIdx w p) = st.1 (zbufIdx w p)
            unfold zbufUpdate
            rw [if_neg (fun hii => hq hii.symm)]
          · show writesAt p (st.2 ++ [(q, c)]) = writesAt p st.2
            rw [writesAt_append, writesAt_single_other c hq', List.append_nil]
        · rw [if_neg hlt]
          exact ⟨rfl, rfl⟩
    obtain ⟨ih1, ih2⟩ := ih (zbufStep v1 v2 v3 c w st q)
      (fun r hr => hL r (List.mem_cons_of_mem _ hr))
    rw [List.foldl_cons]
    exact ⟨ih1.trans hstep.1, ih2.trans hstep.2⟩

/-- The loop body at a contained pixel p itself: the cell and the writes
at p follow the strictly-greater depth test. -/
theorem zbufStep_at_self {C : Type} (v1 v2 v3 : Pt3) (c : C) (w : ℤ) (p : Pt) (u v wq : ℚ)
    (st : (ℤ → ℚ) × List (Pt × C))
    (hbar : barycentric v1.xy v2.xy v3.xy p = some (u, v, wq)) :
    ((zbufStep v1 v2 v3 c w st p).1 (zbufIdx w p) =
      (if st.1 (zbufIdx w p) < zInterp v1 v2 v3 u v wq then zInterp v1 v2 v3 u v wq
       else st.1 (zbufIdx w p))) ∧
    writesAt p (zbufStep v1 v2 v3 c w st p).2 =
      writesAt p st.2 ++
        (if st.1 (zbufIdx w p) < zInterp v1 v2 v3 u v wq then [c] else []) := by
  unfold zbufStep
  rw [hbar]
  dsimp only
  by_cases hlt : st.1 (zbufIdx w p) < zInterp v1 v2 v3 u v wq
  · rw [if_pos hlt, if_pos hlt, if_pos hlt]
    constructor
    · show zbufUpdate st.1 (zbufIdx w p) _ (zbufIdx w p) = _
      unfold zbufUpdate
      rw [if_pos rfl]
    · show writesAt p (st.2 ++ [(p, c)]) = _
      rw [writesAt_append, writesAt_single_self]
  · rw [if_neg hlt, if_neg hlt, if_neg hlt]
    exact ⟨rfl, by rw [List.append_nil]⟩

theorem zbufIdx_inj {w : ℤ} {q p : Pt} (hq0 : 0 ≤ q.x) (hqw : q.x < w) (hp0 : 0 ≤ p.x)
    (hpw : p.x < w) (heq : zbufIdx w q = zbufIdx w p) : q = p := by
  unfold zbufIdx at heq
  have hx : q.x = p.x := by
    have e1 : (q.x + q.y * w) % w = q.x % w := Int.add_mul_emod_self
    have e2 : (p.x + p.y * w) % w = p.x % w := Int.add_mul_emod_self
    rw [Int.emod_eq_of_lt hq0 hqw] at e1
    rw [Int.emod_eq_of_lt hp0 hpw] at e2
    rw [heq, e2] at e1
    exact e1.symm
  have hw : w ≠ 0 := by omega
  have hy : q.y = p.y := by
    have hmul : q.y * w = p.y * w := by omega
    exact mul_right_cancel₀ hw hmul
  exact ptExt hx hy

/-- A nodup scan list touching p exactly once: the final cell and writes
at p are exactly the single step's. -/
theorem foldl_zbufStep_cell {C : Type} (v1 v2 v3 : Pt3) (zb : ℤ → ℚ) (c : C) (w : ℤ) (p : Pt)
    (u v wq : ℚ) (L : List Pt) (hnd : L.Nodup) (hp : p ∈ L)
    (hinj : ∀ q ∈ L, zbufIdx w q = zbufIdx w p → q = p)
    (hbar : barycentric v1.xy v2.xy v3.xy p = some (u, v, wq)) :
    ((L.foldl (zbufStep v1 v2 v3 c w) (zb, [])).1 (zbufIdx w p) =
      if zb (zbufIdx w p) < zInterp v1 v2 v3 u v wq then zInterp v1 v2 v3 u v wq
      else zb (zbufIdx w p)) ∧
    writesAt p (L.foldl (zbufStep v1 v2 v3 c w) (zb, [])).2 =
      (if zb (zbufIdx w p) < zInterp v1 v2 v3 u v wq then [c] else []) := by
  obtain ⟨L1, L2, rfl⟩ := List.append_of_mem hp
  rw [List.nodup_append] at hnd
  obtain ⟨hnd1, hnd2, hdisj⟩ := hnd
  have hpL2 : p ∉ L2 := by
    rw [List.nodup_cons] at hnd2
    exact hnd2.1
  have hpL1 : p ∉ L1 := fun hmem => hdisj hmem (List.mem_cons_self p L2)
  have hL1 : ∀ q ∈ L1, zbufIdx w q ≠ zbufIdx w p := by
    intro q hq heq
    have hqp := hinj q (List.mem_append_left _ hq) heq
    rw [hqp] at hq
    exact hpL1 hq
  have hL2 : ∀ q ∈ L2, zbufIdx w q ≠ zbufIdx w p := by
    intro q hq heq
    have hqp := hinj q (List.mem_append_right _ (List.mem_cons_of_mem _ hq)) heq
    rw [hqp] at hq
    exact hpL2 hq
  rw [List.foldl_append, List.foldl_cons]
  obtain ⟨h1a, h1b⟩ := foldl_zbufStep_untouched v1 v2 v3 c w p L1 (zb, []) hL1
  obtain ⟨hs1, hs2⟩ := zbufStep_at_self v1 v2 v3 c w p u v wq
    (L1.foldl (zbufStep v1 v2 v3 c w) (zb, [])) hbar
  obtain ⟨h2a, h2b⟩ := foldl_zbufStep_untouched v1 v2 v3 c w p L2
    (zbufStep v1 v2 v3 c w (L1.foldl (zbufStep v1 v2 v3 c w) (zb, [])) p) hL2
  rw [h1a] at hs1
  have h1b' : writesAt p (L1.foldl (zbufStep v1 v2 v3 c w) (zb, [])).2 = [] :=
    h1b.trans (writesAt_nil p)
  rw [h1a, h1b', List.nil_append] at hs2
  exact ⟨h2a.trans hs1, h2b.trans hs2⟩

/-- Per-pixel depth rule of triangle_barycentric_zbuf at a contained
scan pixel: the cell follows the strictly-greater test against the
incoming buffer, and the pixel is written exactly when the test passes. -/
theorem zbuf_cell_spec {C : Type} (v1 v2 v3 : Pt3) (zb : ℤ → ℚ) (c : C) (w h : ℤ) (p : Pt)
    (u v wq : ℚ)
    (hp : p ∈ scanPixels (boundaryBoxSetup v1.xy v2.xy v3.xy w h).1
      (boundaryBoxSetup v1.xy v2.xy v3.xy w h).2)
    (hbar : barycentric v1.xy v2.xy v3.xy p = some (u, v, wq)) :
    ((triangleBarycentricZbuf v1 v2 v3 zb c w h).1 (zbufIdx w p) =
      if zb (zbufIdx w p) < zInterp v1 v2 v3 u v wq then zInterp v1 v2 v3 u v wq
      else zb (zbufIdx w p)) ∧
    writesAt p (triangleBarycentricZbuf v1 v2 v3 zb c w h).2 =
      (if zb (zbufIdx w p) < zInterp v1 v2 v3 u v wq then [c] else []) := by
  have hbl := bbox_lower v1.xy v2.xy v3.xy w h
  unfold triangleBarycentricZbuf
  refine foldl_zbufStep_cell v1 v2 v3 zb c w p u v wq _ (scanPixels_nodup _ _) hp ?_ hbar
  intro q hq heq
  have hqb := mem_scanPixels.mp hq
  have hpb := mem_scanPixels.mp hp
  exact zbufIdx_inj (by omega) (by omega) (by omega) (by omega) heq

theorem applyWrites_at {C : Type} (w h : ℤ) (p : Pt) (hx0 : 0 ≤ p.x) (hxw : p.x < w)
    (hy0 : 0 ≤ p.y) (hyh : p.y < h) :
    ∀ (ws : List (Pt × C)) (img : ℤ × ℤ → C),
      applyWrites w h img ws (p.x, p.y) =
        (writesAt p ws).foldl (fun _ cc => cc) (img (p.x, p.y)) := by
  intro ws
  induction ws with
  | nil => intro img; rfl
  | cons e ws ih =>
    intro img
    rw [show applyWrites w h img (e :: ws) = applyWrites w h (imgSet w h img e.1 e.2) ws from rfl]
    rw [ih]
    by_cases hep : e.1 = p
    · rw [show writesAt p (e :: ws) = e.2 :: writesAt p ws from by
        simp [writesAt, hep]]
      rw [List.foldl_cons]
      congr 1
      show imgSet w h img e.1 e.2 (p.x, p.y) = e.2
      unfold imgSet
      rw [hep, if_pos ⟨hx0, hxw, hy0, hyh, rfl⟩]
    · rw [show writesAt p (e :: ws) = writesAt p ws from by
        simp [writesAt, hep]]
      congr 1
      show imgSet w h img e.1 e.2 (p.x, p.y) = img (p.x, p.y)
      unfold imgSet
      rw [if_neg]
      rintro ⟨-, -, -, -, hPP⟩
      rw [Prod.ext_iff] at hPP
      exact hep (ptExt hPP.1.symm hPP.2.symm)

theorem ite_lt_max (zA zB : ℚ) : (if zA < zB then zB else zA) = max zA zB := by
  rcases lt_or_ge zA zB with hlt | hge
  · rw [if_pos hlt, max_eq_right (le_of_lt hlt)]
  · rw [if_neg (not_lt.mpr hge), max_eq_left hge]

/-- Claim C2: at every pixel of the clipped bounding box passing the
containment test, with interpolated depth z and incoming buffer value d,
the pixel is written and the cell set to z exactly when z > d, and is
left untouched otherwise; rasterizing A then B over a common pixel
(whose depths both beat the initial buffer value) leaves the buffer at
max of the two interpolated depths, and the final color is B's if and
only if B's depth is strictly greater. -/
theorem c2_depth_test {C : Type} (a1 a2 a3 b1 b2 b3 : Pt3) (cA cB : C) (zb : ℤ → ℚ)
    (w h : ℤ) (p : Pt) (img : ℤ × ℤ → C) (uA vA wA uB vB wB : ℚ)
    (hpA : p ∈ scanPixels (boundaryBoxSetup a1.xy a2.xy a3.xy w h).1
      (boundaryBoxSetup a1.xy a2.xy a3.xy w h).2)
    (hbA : barycentric a1.xy a2.xy a3.xy p = some (uA, vA, wA))
    (hpB : p ∈ scanPixels (boundaryBoxSetup b1.xy b2.xy b3.xy w h).1
      (boundaryBoxSetup b1.xy b2.xy b3.xy w h).2)
    (hbB : barycentric b1.xy b2.xy b3.xy p = some (uB, vB, wB)) :
    ((triangleBarycentricZbuf a1 a2 a3 zb cA w h).1 (zbufIdx w p) =
      if zb (zbufIdx w p) < zInterp a1 a2 a3 uA vA wA then zInterp a1 a2 a3 uA vA wA
      else zb (zbufIdx w p)) ∧
    (writesAt p (triangleBarycentricZbuf a1 a2 a3 zb cA w h).2 =
      if zb (zbufIdx w p) < zInterp a1 a2 a3 uA vA wA then [cA] else []) ∧
    (zb (zbufIdx w p) < zInterp a1 a2 a3 uA vA wA →
      zb (zbufIdx w p) < zInterp b1 b2 b3 uB vB wB →
      (triangleBarycentricZbuf b1 b2 b3
          (triangleBarycentricZbuf a1 a2 a3 zb cA w h).1 cB w h).1 (zbufIdx w p) =
        max (zInterp a1 a2 a3 uA vA wA) (zInterp b1 b2 b3 uB vB wB) ∧
      applyWrites w h (applyWrites w h img (triangleBarycentricZbuf a1 a2 a3 zb cA w h).2)
          (triangleBarycentricZbuf b1 b2 b3
            (triangleBarycentricZbuf a1 a2 a3 zb cA w h).1 cB w h).2 (p.x, p.y) =
        (if zInterp a1 a2 a3 uA vA wA < zInterp b1 b2 b3 uB vB wB then cB else cA) ∧
      (cA ≠ cB →
        (applyWrites w h (applyWrites w h img (triangleBarycentricZbuf a1 a2 a3 zb cA w h).2)
            (triangleBarycentricZbuf b1 b2 b3
              (triangleBarycentricZbuf a1 a2 a3 zb cA w h).1 cB w h).2 (p.x, p.y) = cB ↔
          zInterp a1 a2 a3 uA vA wA < zInterp b1 b2 b3 uB vB wB))) := by
  obtain ⟨hA1, hA2⟩ := zbuf_cell_spec a1 a2 a3 zb cA w h p uA vA wA hpA hbA
  refine ⟨hA1, hA2, ?_⟩
  intro hdA hdB
  have hA1' : (triangleBarycentricZbuf a1 a2 a3 zb cA w h).1 (zbufIdx w p) =
      zInterp a1 a2 a3 uA vA wA := by
    rw [hA1, if_pos hdA]
  have hA2' : writesAt p (triangleBarycentricZbuf a1 a2 a3 zb cA w h).2 = [cA] := by
    rw [hA2, if_pos hdA]
  obtain ⟨hB1, hB2⟩ := zbuf_cell_spec b1 b2 b3 (triangleBarycentricZbuf a1 a2 a3 zb cA w h).1
    cB w h p uB vB wB hpB hbB
  rw [hA1'] at hB1 hB2
  have hdepth : (triangleBarycentricZbuf b1 b2 b3
      (triangleBarycentricZbuf a1 a2 a3 zb cA w h).1 cB w h).1 (zbufIdx w p) =
      max (zInterp a1 a2 a3 uA vA wA) (zInterp b1 b2 b3 uB vB wB) := by
    rw [hB1, ite_lt_max]
  have hbl := bbox_lower a1.xy a2.xy a3.xy w h
  have hpb := mem_scanPixels.mp hpA
  have hx0 : 0 ≤ p.x := by omega
  have hxw : p.x < w := by omega
  have hy0 : 0 ≤ p.y := by omega
  have hyh : p.y < h := by omega
  have hfin : applyWrites w h
      (applyWrites w h img (triangleBarycentricZbuf a1 a2 a3 zb cA w h).2)
      (triangleBarycentricZbuf b1 b2 b3
        (triangleBarycentricZbuf a1 a2 a3 zb cA w h).1 cB w h).2 (p.x, p.y) =
      (if zInterp a1 a2 a3 uA vA wA < zInterp b1 b2 b3 uB vB wB then cB else cA) := by
    rw [applyWrites_at w h p hx0 hxw hy0 hyh _ _, hB2,
      applyWrites_at w h p hx0 hxw hy0 hyh _ img, hA2']
    by_cases hz : zInterp a1 a2 a3 uA vA wA < zInterp b1 b2 b3 uB vB wB
    · rw [if_pos hz, if_pos hz]
      rfl
    · rw [if_neg hz, if_neg hz]
      rfl
  refine ⟨hdepth, hfin, ?_⟩
  intro hne
  rw [hfin]
  by_cases hz : zInterp a1 a2 a3 uA vA wA < zInterp b1 b2 b3 uB vB wB
  · rw [if_pos hz]
    exact ⟨fun _ => hz, fun _ => rfl⟩
  · rw [if_neg hz]
    exact ⟨fun hcc => absurd hcc hne, fun hzz => absurd hzz hz⟩

/-- Claim C2 witness: two constant-depth triangles over the 8x8 image,
A at depth 1 then B at depth 2, checked at pixel (1,1): the buffer holds
the max and B's color wins. -/
theorem c2_witness :
    (triangleBarycentricZbuf ⟨0, 0, 2⟩ ⟨4, 0, 2⟩ ⟨0, 4, 2⟩
        (triangleBarycentricZbuf ⟨0, 0, 1⟩ ⟨4, 0, 1⟩ ⟨0, 4, 1⟩ (fun _ => 0) (1 : ℕ) 8 8).1
        (2 : ℕ) 8 8).1 (zbufIdx 8 ⟨1, 1⟩) =
      max (zInterp ⟨0, 0, 1⟩ ⟨4, 0, 1⟩ ⟨0, 4, 1⟩ (1/4) (1/4) (1/2))
        (zInterp ⟨0, 0, 2⟩ ⟨4, 0, 2⟩ ⟨0, 4, 2⟩ (1/4) (1/4) (1/2)) ∧
    applyWrites 8 8
        (applyWrites 8 8 (fun _ => (0 : ℕ))
          (triangleBarycentricZbuf ⟨0, 0, 1⟩ ⟨4, 0, 1⟩ ⟨0, 4, 1⟩ (fun _ => 0) (1 : ℕ) 8 8).2)
        (triangleBarycentricZbuf ⟨0, 0, 2⟩ ⟨4, 0, 2⟩ ⟨0, 4, 2⟩
          (triangleBarycentricZbuf ⟨0, 0, 1⟩ ⟨4, 0, 1⟩ ⟨0, 4, 1⟩ (fun _ => 0) (1 : ℕ) 8 8).1
          (2 : ℕ) 8 8).2 ((1 : ℤ), (1 : ℤ)) =
      (if zInterp ⟨0, 0, 1⟩ ⟨4, 0, 1⟩ ⟨0, 4, 1⟩ (1/4) (1/4) (1/2) <
          zInterp ⟨0, 0, 2⟩ ⟨4, 0, 2⟩ ⟨0, 4, 2⟩ (1/4) (1/4) (1/2) then (2 : ℕ) else 1) := by
  have h := c2_depth_test ⟨0, 0, 1⟩ ⟨4, 0, 1⟩ ⟨0, 4, 1⟩ ⟨0, 0, 2⟩ ⟨4, 0, 2⟩ ⟨0, 4, 2⟩
    (1 : ℕ) (2 : ℕ) (fun _ => 0) 8 8 ⟨1, 1⟩ (fun _ => 0)
    (1/4) (1/4) (1/2) (1/4) (1/4) (1/2)
    (by decide) (by norm_num [barycentric, Pt3.xy]) (by decide)
    (by norm_num [barycentric, Pt3.xy])
  have h3 := h.2.2 (by norm_num [zInterp, zbufIdx]) (by norm_num [zInterp, zbufIdx])
  exact ⟨h3.1, h3.2.1⟩

/-! ### The textured fill: panic on missing texture, depth monotonicity -/

theorem texFold_abort {C : Type} (v1 v2 v3 : Pt3) (t1 t2 t3 : Pt) (m : TexModel C)
    (shade : C → C) (w : ℤ) (hm : m.diffusemap = none) (L : List Pt) :
    ∀ (st : (ℤ → ℚ) × List (Pt × C)) (p : Pt), p ∈ L →
      (∃ u v wq, barycentric v1.xy v2.xy v3.xy p = some (u, v, wq) ∧
        st.1 (zbufIdx w p) < zInterp v1 v2 v3 u v wq) →
      texFold (zbufTexStep v1 v2 v3 t1 t2 t3 m shade w) st L = none := by
  induction L with
  | nil =>
    intro st p hp _
    exact absurd hp (List.not_mem_nil p)
  | cons q L ih =>
    intro st p hp hacc
    show (match zbufTexStep v1 v2 v3 t1 t2 t3 m shade w st q with
          | none => none
          | some st1 => texFold (zbufTexStep v1 v2 v3 t1 t2 t3 m shade w) st1 L) = none
    by_cases haccq : ∃ u v wq, barycentric v1.xy v2.xy v3.xy q = some (u, v, wq) ∧
        st.1 (zbufIdx w q) < zInterp v1 v2 v3 u v wq
    · obtain ⟨u, v, wq, hbq, hltq⟩ := haccq
      have hstep : zbufTexStep v1 v2 v3 t1 t2 t3 m shade w st q = none := by
        unfold zbufTexStep
        rw [hbq]
        dsimp only
        rw [if_pos hltq, show TexModel.diffuse m (uvInterp t1 t2 t3 u v wq) = none from by
          unfold TexModel.diffuse
          rw [hm]
          rfl]
      rw [hstep]
    · have hstep : zbufTexStep v1 v2 v3 t1 t2 t3 m shade w st q = some st := by
        unfold zbufTexStep
        cases hbq : barycentric v1.xy v2.xy v3.xy q with
        | none => rfl
        | some t =>
          obtain ⟨u, v, wq⟩ := t
          dsimp only
          rw [if_neg (fun hlt => haccq ⟨u, v, wq, hbq, hlt⟩)]
      rw [hstep]
      have hpL : p ∈ L := by
        rcases List.mem_cons.mp hp with hpq | hpL
        · exfalso
          obtain ⟨u, v, wq, hb, hlt⟩ := hacc
          rw [hpq] at hb hlt
          exact haccq ⟨u, v, wq, hb, hlt⟩
        · exact hpL
      exact ih st p hpL hacc

/-- Claim C9: calling the textured depth-buffered fill on a model with
no diffuse texture loaded panics (modeled as none) as soon as one pixel
passes both the containment test and the depth test; there is no
default-color fallback. -/
theorem c9_missing_texture_panics {C : Type} (v1 v2 v3 : Pt3) (t1 t2 t3 : Pt) (m : TexModel C)
    (shade : C → C) (zb : ℤ → ℚ) (w h : ℤ) (p : Pt) (u v wq : ℚ)
    (hm : m.diffusemap = none)
    (hp : p ∈ scanPixels (boundaryBoxSetup v1.xy v2.xy v3.xy w h).1
      (boundaryBoxSetup v1.xy v2.xy v3.xy w h).2)
    (hbar : barycentric v1.xy v2.xy v3.xy p = some (u, v, wq))
    (hz : zb (zbufIdx w p) < zInterp v1 v2 v3 u v wq) :
    triangleBarycentricZbufTex v1 v2 v3 t1 t2 t3 m shade zb w h = none := by
  unfold triangleBarycentricZbufTex
  exact texFold_abort v1 v2 v3 t1 t2 t3 m shade w hm _ (zb, []) p hp ⟨u, v, wq, hbar, hz⟩

/-- Claim C9 witness: the flat triangle (0,0),(4,0),(0,4) at depth 1
over a fresh buffer with no diffuse map aborts. -/
theorem c9_witness :
    triangleBarycentricZbufTex ⟨0, 0, 1⟩ ⟨4, 0, 1⟩ ⟨0, 4, 1⟩ ⟨0, 0⟩ ⟨0, 0⟩ ⟨0, 0⟩
      ⟨none⟩ (fun cc : ℕ => cc) (fun _ => 0) 8 8 = none :=
  c9_missing_texture_panics ⟨0, 0, 1⟩ ⟨4, 0, 1⟩ ⟨0, 4, 1⟩ ⟨0, 0⟩ ⟨0, 0⟩ ⟨0, 0⟩
    ⟨none⟩ (fun cc : ℕ => cc) (fun _ => 0) 8 8 ⟨0, 0⟩ 0 0 1 rfl (by decide)
    (by norm_num [barycentric, Pt3.xy]) (by norm_num [zInterp, zbufIdx])

theorem zbufStep_mono {C : Type} (v1 v2 v3 : Pt3) (c : C) (w : ℤ)
    (st : (ℤ → ℚ) × List (Pt × C)) (q : Pt) (i : ℤ) :
    st.1 i ≤ (zbufStep v1 v2 v3 c w st q).1 i := by
  unfold zbufStep
  cases hbar : barycentric v1.xy v2.xy v3.xy q with
  | none => exact le_refl _
  | some t =>
    obtain ⟨u, v, wq⟩ := t
    dsimp only
    by_cases hlt : st.1 (zbufIdx w q) < zInterp v1 v2 v3 u v wq
    · rw [if_pos hlt]
      show st.1 i ≤ zbufUpdate st.1 (zbufIdx w q) _ i
      unfold zbufUpdate
      by_cases hii : i = zbufIdx w q
      · rw [if_pos hii, hii]
        exact le_of_lt hlt
      · rw [if_neg hii]
    · rw [if_neg hlt]

theorem foldl_zbufStep_mono {C : Type} (v1 v2 v3 : Pt3) (c : C) (w : ℤ) (L : List Pt) :
    ∀ (st : (ℤ → ℚ) × List (Pt × C)) (i : ℤ),
      st.1 i ≤ (L.foldl (zbufStep v1 v2 v3 c w) st).1 i := by
  induction L with
  | nil => intro st i; exact le_refl _
  | cons q L ih =>
    intro st i
    rw [List.foldl_cons]
    exact le_trans (zbufStep_mono v1 v2 v3 c w st q i) (ih _ i)

theorem zbufTexStep_mono {C : Type} (v1 v2 v3 : Pt3) (t1 t2 t3 : Pt) (m : TexModel C)
    (shade : C → C) (w : ℤ) (st st' : (ℤ → ℚ) × List (Pt × C)) (q : Pt) (i : ℤ)
    (hstep : zbufTexStep v1 v2 v3 t1 t2 t3 m shade w st q = some st') :
    st.1 i ≤ st'.1 i := by
  unfold zbufTexStep at hstep
  revert hstep
  cases hbar : barycentric v1.xy v2.xy v3.xy q with
  | none =>
    intro hstep
    injection hstep with hh
    rw [← hh]
  | some t =>
    obtain ⟨u, v, wq⟩ := t
    dsimp only
    by_cases hlt : st.1 (zbufIdx w q) < zInterp v1 v2 v3 u v wq
    · rw [if_pos hlt]
      cases hdiff : TexModel.diffuse m (uvInterp t1 t2 t3 u v wq) with
      | none =>
        intro hstep
        exact Option.noConfusion hstep
      | some cc =>
        intro hstep
        injection hstep with hh
        rw [← hh]
        show st.1 i ≤ zbufUpdate st.1 (zbufIdx w q) _ i
        unfold zbufUpdate
        by_cases hii : i = zbufIdx w q
        · rw [if_pos hii, hii]
          exact le_of_lt hlt
        · rw [if_neg hii]
    · rw [if_neg hlt]
      intro hstep
      injection hstep with hh
      rw [← hh]

theorem texFold_mono {C : Type} (v1 v2 v3 : Pt3) (t1 t2 t3 : Pt) (m : TexModel C)
    (shade : C → C) (w : ℤ) (L : List Pt) :
    ∀ (st st' : (ℤ → ℚ) × List (Pt × C)) (i : ℤ),
      texFold (zbufTexStep v1 v2 v3 t1 t2 t3 m shade w) st L = some st' →
      st.1 i ≤ st'.1 i := by
  induction L with
  | nil =>
    intro st st' i hfold
    injection hfold with hh
    rw [← hh]
  | cons q L ih =>
    intro st st' i hfold
    rw [show texFold (zbufTexStep v1 v2 v3 t1 t2 t3 m shade w) st (q :: L) =
        (match zbufTexStep v1 v2 v3 t1 t2 t3 m shade w st q with
          | none => none
          | some st1 => texFold (zbufTexStep v1 v2 v3 t1 t2 t3 m shade w) st1 L) from rfl]
      at hfold
    revert hfold
    cases hstep : zbufTexStep v1 v2 v3 t1 t2 t3 m shade w st q with
    | none =>
      intro hfold
      exact Option.noConfusion hfold
    | some st1 =>
      intro hfold
      exact le_trans (zbufTexStep_mono v1 v2 v3 t1 t2 t3 m shade w st st1 q i hstep)
        (ih st1 st' i hfold)

/-- Claim C10: both depth-buffered rasterizers only ever raise depth
buffer cells: every cell after the call is at least its value before
(for the textured variant, whenever the call completes without the
missing-texture panic). -/
theorem c10_depth_buffer_monotone {C : Type} (v1 v2 v3 : Pt3) (t1 t2 t3 : Pt) (m : TexModel C)
    (shade : C → C) (zb : ℤ → ℚ) (c : C) (w h : ℤ) (i : ℤ) :
    zb i ≤ (triangleBarycentricZbuf v1 v2 v3 zb c w h).1 i ∧
    (∀ st', triangleBarycentricZbufTex v1 v2 v3 t1 t2 t3 m shade zb w h = some st' →
      zb i ≤ st'.1 i) := by
  constructor
  · unfold triangleBarycentricZbuf
    exact foldl_zbufStep_mono v1 v2 v3 c w _ (zb, []) i
  · intro st' hsome
    unfold triangleBarycentricZbufTex at hsome
    exact texFold_mono v1 v2 v3 t1 t2 t3 m shade w _ (zb, []) st' i hsome

/-- Claim C10 witness: a degenerate one-pixel call where the textured
fill completes, applied at cell 0. -/
theorem c10_witness :
    triangleBarycentricZbufTex ⟨0, 0, 0⟩ ⟨0, 0, 0⟩ ⟨0, 0, 0⟩ ⟨0, 0⟩ ⟨0, 0⟩ ⟨0, 0⟩
      (⟨none⟩ : TexModel ℕ) (fun cc => cc) (fun _ => 0) 1 1 = some (fun _ => 0, []) ∧
    (0 : ℚ) ≤ (fun _ => (0 : ℚ), ([] : List (Pt × ℕ))).1 0 :=
  ⟨rfl, (c10_depth_buffer_monotone ⟨0, 0, 0⟩ ⟨0, 0, 0⟩ ⟨0, 0, 0⟩ ⟨0, 0⟩ ⟨0, 0⟩ ⟨0, 0⟩
      (⟨none⟩ : TexModel ℕ) (fun cc => cc) (fun _ => 0) 0 1 1 0).2
    (fun _ => 0, []) rfl⟩

end TinyRenderer
